import Mathlib

/-!
Shallow embedding of the tokentop agent-copilot-cli plugin core: the
per-session event-log parser, the three-tier cache and reconciliation
orchestrator (`parser.ts`), the string/log utilities (`utils.ts`) and the
two filesystem watchers (`watcher.ts`).

Modelling conventions:
* JS strings are Lean `String`s; the string operations the code uses
  (`trim`, `split`, `indexOf`, `startsWith`, ...) are re-implemented
  structurally over `String.data` so that they evaluate by kernel reduction.
  JS `String.prototype.length` counts UTF-16 code units while `String.length`
  counts code points; they agree on all BMP text (the divergence is confined
  to astral-plane characters and is not load-bearing for any claim).
* `JSON.parse` and `Date.parse` are host-runtime services; they enter the
  embedding as oracles in `JsEnv` (`none` models an exception / `NaN`).
* JS numbers carried by vendor usage blocks are modelled as `Int`, following
  the declared TypeScript field types (`number`).
* The filesystem is a snapshot value: option-valued file contents (`none`
  models a read/stat failure), per-directory listings as lists.
* `async` functions are pure state transformers: all code paths return, so
  "never raises" is modelled by totality of the Lean functions.
-/

/-- Whitespace characters removed by JS String.prototype.trim (ASCII subset;
the full JS set also trims some rare Unicode spaces that never occur in the
inputs the claims range over). -/
def jsWhitespace (c : Char) : Bool :=
  c = ' ' || c = '\t' || c = '\n' || c = '\r' || c = '\x0b' || c = '\x0c'

/-- Trim over a character list: drop leading and trailing whitespace. -/
def jsTrimList (cs : List Char) : List Char :=
  ((cs.dropWhile jsWhitespace).reverse.dropWhile jsWhitespace).reverse

/-- JS String.prototype.trim. -/
def jsTrim (s : String) : String := String.mk (jsTrimList s.data)

/-- Split a character list at every character satisfying p; the separators are
consumed. Splitting the empty list yields one empty field, like JS split. -/
def splitOnPred (p : Char → Bool) : List Char → List (List Char)
  | [] => [[]]
  | c :: cs =>
    if p c then [] :: splitOnPred p cs
    else
      match splitOnPred p cs with
      | [] => [[c]]
      | l :: ls => (c :: l) :: ls

/-- JS content.split on the newline regex. The code splits on CRLF-or-LF;
splitting on LF alone leaves a trailing CR on a line, which every consumer
in the code removes with trim before use. -/
def jsLines (s : String) : List String :=
  (splitOnPred (fun c => c = '\n') s.data).map String.mk

/-- node path.basename: the path segment after the last slash. -/
def basename (p : String) : String :=
  String.mk ((splitOnPred (fun c => c = '/') p.data).getLastD p.data)

/-- node path.join for the two-segment joins the code performs. -/
def pathJoin (a b : String) : String := a ++ "/" ++ b

/-- JS String.prototype.startsWith. -/
def strStartsWith (s pre : String) : Bool := pre.data.isPrefixOf s.data

/-- JS String.prototype.endsWith. -/
def strEndsWith (s suf : String) : Bool := suf.data.isSuffixOf s.data

/-- Split at the first colon, like indexOf(':') plus the two slices around it;
none when the string holds no colon. -/
def breakAtColon : List Char → Option (List Char × List Char)
  | [] => none
  | c :: cs =>
    if c = ':' then some ([], cs)
    else (breakAtColon cs).map (fun p => (c :: p.1, p.2))

/-- JS parseInt(s, 10): skip leading whitespace, optional sign, then the
leading run of decimal digits; none models NaN. -/
def parseIntJS (s : String) : Option Int :=
  let cs := s.data.dropWhile jsWhitespace
  let signAndRest : Int × List Char :=
    match cs with
    | '-' :: t => (-1, t)
    | '+' :: t => (1, t)
    | t => (1, t)
  let digits := signAndRest.2.takeWhile (fun c => '0' ≤ c && c ≤ '9')
  if digits.isEmpty then none
  else some (signAndRest.1 * ((digits.foldl (fun n c => n * 10 + (c.toNat - '0'.toNat)) 0 : Nat) : Int))

/-- Dynamic JSON value, the result type of the JSON.parse oracle. JS numbers
are modelled as Int (the vendor token counts are integral). -/
inductive JVal where
  | null
  | bool (b : Bool)
  | num (n : Int)
  | str (s : String)
  | arr (elems : List JVal)
  | obj (fields : List (String × JVal))

/-- Property lookup on a parsed JSON value. JSON.parse keeps the last of
duplicate keys, hence getLast?. Lookup on a non-object is undefined. -/
def JVal.getField : JVal → String → Option JVal
  | .obj fields, key => ((fields.filter (fun p => p.1 = key)).getLast?).map (·.2)
  | _, _ => none

/-- typeof v === 'object' combined with truthiness: objects and arrays
qualify, null (typeof 'object' but falsy) does not. -/
def JVal.isObjLike : JVal → Bool
  | .obj _ => true
  | .arr _ => true
  | _ => false

/-- Field access that keeps only string values (the declared TS type). -/
def JVal.strField (v : JVal) (key : String) : Option String :=
  match v.getField key with
  | some (.str s) => some s
  | _ => none

/-- Field access that keeps only numeric values, mirroring the
typeof x === 'number' checks. -/
def JVal.numField (v : JVal) (key : String) : Option Int :=
  match v.getField key with
  | some (.num n) => some n
  | _ => none

/-- Host-runtime oracles: JSON.parse (none = exception thrown) and
Date.parse (none = NaN result). -/
structure JsEnv where
  jsonParse : String → Option JVal
  dateParse : String → Option Int

/-- utils.ts readJsonlFile, line-processing part: trim each line, skip blank
lines, parse the rest, silently skipping lines whose parse throws. -/
def readJsonlLines (jsonParse : String → Option JVal) (lines : List String) : List JVal :=
  lines.filterMap (fun line =>
    let trimmed := jsTrim line
    if trimmed = "" then none else jsonParse trimmed)

/-- utils.ts readJsonlFile: returns empty on file read errors (content none),
otherwise splits into lines and parses them tolerantly. -/
def readJsonlFile (jsonParse : String → Option JVal) (content : Option String) : List JVal :=
  match content with
  | none => []
  | some c => readJsonlLines jsonParse (jsLines c)

/-- types.ts CopilotCliWorkspaceInfo: flat workspace.yaml sidecar record. -/
structure CopilotCliWorkspaceInfo where
  id : String
  cwd : String
  git_root : Option String
  repository : Option String
  branch : Option String
  summary : Option String
  summary_count : Option Int
  created_at : String
  updated_at : String
deriving DecidableEq

/-- utils.ts readWorkspaceYaml, accumulation loop: trimmed non-comment lines
with a colon contribute a key/value pair; assignment into the result object
means the last binding of a key wins. -/
def yamlPairs (lines : List String) : List (String × String) :=
  lines.filterMap (fun line =>
    let trimmed := jsTrim line
    if trimmed = "" then none
    else if strStartsWith trimmed "#" then none
    else
      match breakAtColon trimmed.data with
      | none => none
      | some kv =>
        let key := String.mk (jsTrimList kv.1)
        let value := String.mk (jsTrimList kv.2)
        if key = "" then none else some (key, value))

/-- Lookup in the accumulated flat object: last assignment wins. -/
def yamlGet (pairs : List (String × String)) (k : String) : Option String :=
  ((pairs.filter (fun p => p.1 = k)).getLast?).map (·.2)

/-- utils.ts readWorkspaceYaml: none on read failure or when the record lacks
a truthy id. -/
def readWorkspaceYaml (content : Option String) : Option CopilotCliWorkspaceInfo :=
  match content with
  | none => none
  | some c =>
    let pairs := yamlPairs (jsLines c)
    match yamlGet pairs "id" with
    | none => none
    | some id =>
      if id = "" then none
      else some {
        id := id,
        cwd := (yamlGet pairs "cwd").getD "",
        git_root := yamlGet pairs "git_root",
        repository := yamlGet pairs "repository",
        branch := yamlGet pairs "branch",
        summary := yamlGet pairs "summary",
        summary_count := (yamlGet pairs "summary_count").bind (fun s =>
          if s = "" then none else parseIntJS s),
        created_at := (yamlGet pairs "created_at").getD "",
        updated_at := (yamlGet pairs "updated_at").getD "" }

/-- utils.ts estimateTokens: ceil(length / 4), with the falsy-text guard. -/
def estimateTokens (text : String) : Nat :=
  if text = "" then 0 else (text.length + 3) / 4

/-- utils.ts toTimestamp: falsy value gives the fallback, then Date.parse
with the fallback on a non-finite result. -/
def toTimestamp (dateParse : String → Option Int) (value : Option String) (fallback : Int) : Int :=
  match value with
  | none => fallback
  | some s => if s = "" then fallback else (dateParse s).getD fallback

/-- The literal the process-log scan looks for. The regex in
extractModelFromProcessLog requires this full prefix, including the
leading log-level tag. -/
def MODEL_MARKER : String := "[INFO] Using default model: "

/-- Everything after the first occurrence of pattern in text, none when
pattern does not occur. -/
def dropAfterMarker (pattern : List Char) : List Char → Option (List Char)
  | [] => if pattern.isEmpty then some [] else none
  | c :: t =>
    if pattern.isPrefixOf (c :: t) then some ((c :: t).drop pattern.length)
    else dropAfterMarker pattern t

/-- One regex line: a match needs the marker followed by at least one
character; the capture (rest of the line) is trimmed and must be non-empty
to count as a model name. -/
def lineModelCandidate (line : List Char) : Option String :=
  match dropAfterMarker MODEL_MARKER.data line with
  | none => none
  | some rest =>
    if rest.isEmpty then none
    else
      let model := String.mk (jsTrimList rest)
      if model = "" then none else some model

/-- utils.ts extractModelFromProcessLog: none on read failure; otherwise the
matchAll loop keeps the last line (regex '.' stops at any line terminator,
so lines are the segments between LF or CR) whose trimmed capture is
non-empty. -/
def extractModelFromProcessLog (content : Option String) : Option String :=
  match content with
  | none => none
  | some c =>
    (splitOnPred (fun ch => ch = '\n' || ch = '\r') c.data).foldl
      (fun lastModel line =>
        match lineModelCandidate line with
        | some m => some m
        | none => lastModel)
      none

/-- parser.ts model cache module state (cachedModel / modelCacheTime). -/
structure ModelCacheState where
  cachedModel : Option String
  modelCacheTime : Int
deriving DecidableEq

def MODEL_CACHE_TTL_MS : Int := 60000

/-- One directory entry of the logs directory, as getDefaultModel sees it:
stat may fail (mtimeMs none) and the file read may fail (content none). -/
structure LogFileEntry where
  name : String
  isFile : Bool
  mtimeMs : Option Int
  content : Option String

/-- getDefaultModel, filtering loop: regular files named process-*.log whose
stat succeeds, paired with their mtime. -/
def qualifyingLogs (entries : List LogFileEntry) : List (LogFileEntry × Int) :=
  entries.filterMap (fun e =>
    if e.isFile && strStartsWith e.name "process-" && strEndsWith e.name ".log" then
      e.mtimeMs.map (fun mt => (e, mt))
    else none)

/-- getDefaultModel, selection: stable sort by mtime descending (the JS
comparator b.mtimeMs - a.mtimeMs on a stable Array.sort), take the first. -/
def latestProcessLog (entries : List LogFileEntry) : Option (LogFileEntry × Int) :=
  ((qualifyingLogs entries).insertionSort (fun a b => b.2 ≤ a.2)).head?

/-- getDefaultModel after the cache-freshness gate: scan the logs directory
(none = readdir failure), read the most recent process log, fall back to the
previously cached value or the sentinel. A found model is cached at now. -/
def getDefaultModelScan (now : Int) (st : ModelCacheState) (logs : Option (List LogFileEntry)) :
    String × ModelCacheState :=
  match logs with
  | none => (st.cachedModel.getD "unknown", st)
  | some entries =>
    match latestProcessLog entries with
    | none => (st.cachedModel.getD "unknown", st)
    | some e =>
      match extractModelFromProcessLog e.1.content with
      | some model => (model, { cachedModel := some model, modelCacheTime := now })
      | none => (st.cachedModel.getD "unknown", st)

/-- parser.ts getDefaultModel: a truthy cached model younger than 60s is
returned as-is; otherwise the process logs are scanned. -/
def getDefaultModel (now : Int) (st : ModelCacheState) (logs : Option (List LogFileEntry)) :
    String × ModelCacheState :=
  match st.cachedModel with
  | some m =>
    if m ≠ "" ∧ now - st.modelCacheTime < MODEL_CACHE_TTL_MS then (m, st)
    else getDefaultModelScan now st logs
  | none => getDefaultModelScan now st logs

/-- One entry of the session model-change timeline. -/
structure ModelChangeEntry where
  timestamp : Int
  model : String
deriving DecidableEq

/-- parser.ts resolveModelAtTime: walk the timeline backwards, the first
entry (from the end) at or before the timestamp wins, else the default. -/
def resolveModelAtTime (timestamp : Int) (defaultModel : String)
    (modelChanges : List ModelChangeEntry) : String :=
  if modelChanges.isEmpty then defaultModel
  else
    match modelChanges.reverse.find? (fun c => c.timestamp ≤ timestamp) with
    | some c => c.model
    | none => defaultModel

/-- parser.ts isAssistantMessage type guard. -/
def isAssistantMessage (v : JVal) : Bool :=
  v.isObjLike &&
  (match v.getField "type" with
   | some (.str t) => t = "assistant.message"
   | _ => false) &&
  (match v.getField "data" with
   | some d =>
     d.isObjLike &&
     (match d.getField "messageId" with
      | some (.str mid) => mid ≠ ""
      | _ => false) &&
     (match d.getField "content" with
      | some (.str _) => true
      | _ => false)
   | none => false)

/-- parser.ts isSessionStart type guard. -/
def isSessionStart (v : JVal) : Bool :=
  v.isObjLike &&
  (match v.getField "type" with
   | some (.str t) => t = "session.start"
   | _ => false) &&
  (match v.getField "data" with
   | some d =>
     d.isObjLike &&
     (match d.getField "sessionId" with
      | some (.str _) => true
      | _ => false)
   | none => false)

/-- parser.ts isModelChange type guard. -/
def isModelChange (v : JVal) : Bool :=
  v.isObjLike &&
  (match v.getField "type" with
   | some (.str t) => t = "session.model_change"
   | _ => false) &&
  (match v.getField "data" with
   | some d =>
     d.isObjLike &&
     (match d.getField "newModel" with
      | some (.str s) => s ≠ ""
      | _ => false)
   | none => false)

/-- Timeline collection step: a model-change event contributes its newModel
with a tolerantly parsed timestamp (fallback 0). -/
def asModelChange (dateParse : String → Option Int) (v : JVal) : Option ModelChangeEntry :=
  if isModelChange v then
    some {
      timestamp := toTimestamp dateParse (v.strField "timestamp") 0,
      model := (match (v.getField "data").bind (fun d => d.getField "newModel") with
                | some (.str s) => s
                | _ => "") }
  else none

/-- The vendor-supplied usage block of an assistant message, per the declared
TS field types; each field absent when missing or not a number. -/
structure UsageBlock where
  prompt_tokens : Option Int
  completion_tokens : Option Int
  cache_read_input_tokens : Option Int
  cache_creation_input_tokens : Option Int
deriving DecidableEq

/-- The data payload of a guarded assistant.message event. -/
structure AssistantData where
  messageId : String
  content : String
  model : Option String
  usage : Option UsageBlock
deriving DecidableEq

/-- A guarded assistant.message event with its envelope timestamp. -/
structure AssistantEvent where
  data : AssistantData
  timestamp : Option String
deriving DecidableEq

/-- Extraction of the typed assistant-message shape from a parsed event that
passes the guard. A present non-null usage value of non-object type behaves
exactly like an all-absent block (every property lookup on it is undefined),
so it is normalised to one. -/
def asAssistantEvent (v : JVal) : Option AssistantEvent :=
  if isAssistantMessage v then
    match v.getField "data" with
    | some d =>
      some {
        data := {
          messageId := (d.strField "messageId").getD "",
          content := (d.strField "content").getD "",
          model := d.strField "model",
          usage :=
            match d.getField "usage" with
            | none => none
            | some .null => none
            | some u =>
              some {
                prompt_tokens := u.numField "prompt_tokens",
                completion_tokens := u.numField "completion_tokens",
                cache_read_input_tokens := u.numField "cache_read_input_tokens",
                cache_creation_input_tokens := u.numField "cache_creation_input_tokens" } },
        timestamp := v.strField "timestamp" }
    | none => none
  else none

/-- Token pair of the estimation branch: output = estimateTokens(content),
input = Math.ceil(output * 0.5). -/
def estimatedInputOutput (content : String) : Int × Int :=
  let outputTokens := estimateTokens content
  ((((outputTokens + 1) / 2 : Nat) : Int), (outputTokens : Int))

/-- Cache token attachment: the value is kept iff present and strictly
positive (the JS test x && x > 0). -/
def positiveCache (v : Option Int) : Option Int :=
  v.bind (fun c => if 0 < c then some c else none)

/-- Session-level fields resolved once per directory from the workspace
sidecar: id (falling back to the directory basename), trimmed non-empty
summary, non-empty cwd. -/
structure SessionInfo where
  sessionId : String
  sessionName : Option String
  projectPath : Option String
deriving DecidableEq

def sessionInfoOf (workspace : Option CopilotCliWorkspaceInfo) (dirBasename : String) : SessionInfo :=
  { sessionId := (workspace.map (·.id)).getD dirBasename,
    sessionName := workspace.bind (fun w => w.summary.bind (fun s =>
      let t := jsTrim s
      if t = "" then none else some t)),
    projectPath := workspace.bind (fun w => if w.cwd = "" then none else some w.cwd) }

/-- Token counts of one usage row. -/
structure TokenCounts where
  input : Int
  output : Int
  cacheRead : Option Int
  cacheWrite : Option Int
deriving DecidableEq

/-- SessionUsageData: one emitted usage row (metadata.isEstimated is the only
metadata field and is inlined). -/
structure UsageRow where
  sessionId : String
  providerId : String
  modelId : String
  tokens : TokenCounts
  timestamp : Int
  sessionUpdatedAt : Int
  isEstimated : Bool
  sessionName : Option String
  projectPath : Option String
deriving DecidableEq

/-- parser.ts parseSessionDirRows, per-message body: vendor token data when
prompt_tokens is a positive number, estimation otherwise; cache counts
attached only in the vendor branch; model from the explicit field or the
timeline; timestamps tolerant with the directory mtime as fallback. -/
def buildUsageRow (dateParse : String → Option Int) (si : SessionInfo) (defaultModel : String)
    (mtimeMs : Int) (modelChanges : List ModelChangeEntry) (e : AssistantEvent) : UsageRow :=
  let d := e.data
  let vendor : Option (Int × Int × Option Int × Option Int) :=
    match d.usage with
    | some u =>
      match u.prompt_tokens with
      | some p =>
        if 0 < p then
          some (p, u.completion_tokens.getD 0,
                positiveCache u.cache_read_input_tokens,
                positiveCache u.cache_creation_input_tokens)
        else none
      | none => none
    | none => none
  let fields : Int × Int × Option Int × Option Int × Bool :=
    match vendor with
    | some x => (x.1, x.2.1, x.2.2.1, x.2.2.2, false)
    | none =>
      let io := estimatedInputOutput d.content
      (io.1, io.2, none, none, true)
  let ts := toTimestamp dateParse e.timestamp mtimeMs
  { sessionId := si.sessionId,
    providerId := "github-copilot",
    modelId := d.model.getD (resolveModelAtTime ts defaultModel modelChanges),
    tokens := { input := fields.1, output := fields.2.1,
                cacheRead := fields.2.2.1, cacheWrite := fields.2.2.2.1 },
    timestamp := ts,
    sessionUpdatedAt := mtimeMs,
    isEstimated := fields.2.2.2.2,
    sessionName := si.sessionName,
    projectPath := si.projectPath }

/-- Key membership in an insertion-ordered JS Map represented as a list of
bindings. -/
def keyMem {V : Type} (m : List (String × V)) (k : String) : Bool :=
  m.any (fun p => p.1 = k)

/-- JS Map.get. -/
def mapGet {V : Type} (m : List (String × V)) (k : String) : Option V :=
  (m.find? (fun p => p.1 = k)).map (·.2)

/-- JS Map.set: updates an existing key in place (keeping its position),
otherwise appends — the insertion-order semantics the dedup relies on. -/
def mapSet {V : Type} (m : List (String × V)) (k : String) (v : V) : List (String × V) :=
  if keyMem m k then m.map (fun p => if p.1 = k then (k, v) else p)
  else m ++ [(k, v)]

/-- JS Map.delete. -/
def mapDelete {V : Type} (m : List (String × V)) (k : String) : List (String × V) :=
  m.filter (fun p => p.1 ≠ k)

/-- parser.ts parseSessionDirRows, timeline construction: collect the
model-change events, then stable-sort ascending by timestamp. -/
def sessionTimeline (dateParse : String → Option Int) (events : List JVal) :
    List ModelChangeEntry :=
  (events.filterMap (asModelChange dateParse)).insertionSort (fun a b => a.timestamp ≤ b.timestamp)

/-- parser.ts parseSessionDirRows, main loop over parsed events: build a row
per assistant message, deduplicate by messageId through the insertion-ordered
map, emit the values. -/
def rowsFromEvents (dateParse : String → Option Int) (si : SessionInfo) (defaultModel : String)
    (mtimeMs : Int) (events : List JVal) : List UsageRow :=
  let modelChanges := sessionTimeline dateParse events
  let pairs := (events.filterMap asAssistantEvent).map
    (fun e => (e.data.messageId, buildUsageRow dateParse si defaultModel mtimeMs modelChanges e))
  (pairs.foldl (fun m p => mapSet m p.1 p.2) []).map (·.2)

/-- One session directory of the filesystem snapshot: the contents of its two
files (none = missing/unreadable) and the result of stat on events.jsonl. -/
structure SessionDirFS where
  path : String
  events : Option String
  workspace : Option String
deriving DecidableEq

/-- parser.ts parseSessionDirRows: empty when the event log yields no events;
otherwise resolve the session fields from the sidecar and build the
deduplicated rows. -/
def parseSessionDirRows (env : JsEnv) (dir : SessionDirFS) (mtimeMs : Int) (defaultModel : String) :
    List UsageRow :=
  let events := readJsonlFile env.jsonParse dir.events
  if events.isEmpty then []
  else
    let workspace := readWorkspaceYaml dir.workspace
    rowsFromEvents env.dateParse (sessionInfoOf workspace (basename dir.path)) defaultModel
      mtimeMs events

/-- watcher.ts SessionWatcherState: the dirty-tracking watcher. Watch handles
are abstracted to the set of watched directory paths (fsSync.watch is assumed
to succeed; a failed watch merely leaves the path unwatched and is not
load-bearing for any claim). -/
structure SessionWatcherState where
  sessionDirWatchers : List String
  rootWatcher : Bool
  dirtyPaths : List String
  reconciliationTimer : Bool
  started : Bool
deriving DecidableEq

/-- JS Set.add on the list representation of a set of paths. -/
def setAdd (s : List String) (x : String) : List String :=
  if s.contains x then s else s ++ [x]

/-- watcher.ts watchSessionDir: register a watch for a session directory
unless one exists already. -/
def watchSessionDir (w : SessionWatcherState) (sessionDirPath : String) : SessionWatcherState :=
  if w.sessionDirWatchers.contains sessionDirPath then w
  else { w with sessionDirWatchers := w.sessionDirWatchers ++ [sessionDirPath] }

/-- watcher.ts dirty-mark callback body: a change notification for
events.jsonl adds the file path to the dirty set. -/
def markDirty (w : SessionWatcherState) (filePath : String) : SessionWatcherState :=
  { w with dirtyPaths := setAdd w.dirtyPaths filePath }

/-- watcher.ts startSessionWatcher: idempotent; sets the started flag, the
root watch, per-directory watches for the discovered session dirs and the
reconciliation timer. -/
def startSessionWatcher (discoveredDirPaths : List String) (w : SessionWatcherState) :
    SessionWatcherState :=
  if w.started then w
  else
    let w := { w with started := true, rootWatcher := true }
    let w := discoveredDirPaths.foldl watchSessionDir w
    { w with reconciliationTimer := true }

/-- watcher.ts stopSessionWatcher: cancels the timer, closes and clears every
per-directory watch, closes the root watch, clears the dirty set and resets
the started flag. -/
def stopSessionWatcher (_w : SessionWatcherState) : SessionWatcherState :=
  { sessionDirWatchers := [], rootWatcher := false, dirtyPaths := [],
    reconciliationTimer := false, started := false }

/-- watcher.ts ActivityWatcherState: the live-activity tailing watcher. The
registered callback is abstracted to its presence; the emitted updates are
returned by processEventsDelta instead. -/
structure ActivityWatcherState where
  sessionDirWatchers : List String
  rootWatcher : Bool
  callbackSet : Bool
  fileOffsets : List (String × Nat)
  started : Bool
deriving DecidableEq

/-- One ActivityUpdate pushed to the live callback. -/
structure ActivityUpdate where
  sessionId : String
  messageId : String
  tokens : TokenCounts
  timestamp : Int
deriving DecidableEq

/-- watcher.ts processEventsDelta, token computation: same input/output
figures as the parser, but the cache counts are attached outside the
vendor/estimate branch, from the optional-chained usage block alone. -/
def deltaTokens (d : AssistantData) : TokenCounts :=
  let io : Int × Int :=
    match d.usage with
    | some u =>
      match u.prompt_tokens with
      | some p =>
        if 0 < p then (p, u.completion_tokens.getD 0) else estimatedInputOutput d.content
      | none => estimatedInputOutput d.content
    | none => estimatedInputOutput d.content
  { input := io.1, output := io.2,
    cacheRead := positiveCache (d.usage.bind (·.cache_read_input_tokens)),
    cacheWrite := positiveCache (d.usage.bind (·.cache_creation_input_tokens)) }

/-- Result of one processEventsDelta invocation: the chunk the file read
returned (none when nothing was read), the updates pushed to the callback in
order, and the offset table afterwards. -/
structure DeltaResult where
  chunk : Option (List Char)
  updates : List ActivityUpdate
  fileOffsets : List (String × Nat)
deriving DecidableEq

/-- watcher.ts processEventsDelta. The event log is a character sequence (the
code reads bytes; on the one-byte-per-character text of these logs byte and
character offsets coincide). stat failure (fileContent none) drops the
offset entry; an empty delta range returns early without touching the
offsets; otherwise the bytes from startOffset to the current size are read,
the offset is advanced to the current size, and each parsed assistant
message in the chunk yields one update. -/
def processEventsDelta (env : JsEnv) (nowMs : Int) (hasCallback : Bool)
    (fileContent : Option (List Char)) (workspaceContent : Option String)
    (offsets : List (String × Nat)) (filePath dirPath : String) : DeltaResult :=
  if !hasCallback then ⟨none, [], offsets⟩
  else
    match fileContent with
    | none => ⟨none, [], mapDelete offsets filePath⟩
    | some content =>
      let size := content.length
      let knownOffset := (mapGet offsets filePath).getD 0
      let startOffset := if size < knownOffset then 0 else knownOffset
      if size = startOffset then ⟨none, [], offsets⟩
      else
        let chunk := content.drop startOffset
        let offsets' := mapSet offsets filePath size
        let sessionId := ((readWorkspaceYaml workspaceContent).map (·.id)).getD (basename dirPath)
        let lines := splitOnPred (fun c => c = '\n') chunk
        let updates := lines.filterMap (fun line =>
          let trimmed := String.mk (jsTrimList line)
          if trimmed = "" then none
          else
            match env.jsonParse trimmed with
            | none => none
            | some v =>
              (asAssistantEvent v).map (fun e =>
                { sessionId := sessionId,
                  messageId := e.data.messageId,
                  tokens := deltaTokens e.data,
                  timestamp := toTimestamp env.dateParse e.timestamp nowMs }))
        ⟨some chunk, updates, offsets'⟩

/-- watcher.ts stopActivityWatch: closes and clears the activity watches,
clears the offsets, unregisters the callback, resets started — and then also
runs stopSessionWatcher. -/
def stopActivityWatch (_a : ActivityWatcherState) (s : SessionWatcherState) :
    ActivityWatcherState × SessionWatcherState :=
  ({ sessionDirWatchers := [], rootWatcher := false, callbackSet := false,
     fileOffsets := [], started := false },
   stopSessionWatcher s)

/-- cache.ts sessionMetadataIndex entry: events.jsonl path to mtime and
session id. -/
structure SessionMeta where
  mtimeMs : Int
  sessionId : String
deriving DecidableEq

/-- cache.ts sessionAggregateCache entry: parsed rows memoised under the
mtime at parse time, with an access time for eviction. -/
structure AggEntry where
  updatedAt : Int
  usageRows : List UsageRow
  lastAccessed : Int
deriving DecidableEq

/-- cache.ts sessionCache: the single-slot result cache. -/
structure SessionCacheState where
  lastCheck : Int
  lastResult : List UsageRow
  lastLimit : Int
  lastSince : Option Int
deriving DecidableEq

/-- SessionParseOptions from the plugin SDK: all fields optional. -/
structure SessionParseOptions where
  limit : Option Int
  since : Option Int
  sessionId : Option String
deriving DecidableEq

/-- One discovered session directory of the filesystem snapshot: file
contents plus the outcome of fs.stat on its events.jsonl (none = the file
vanished between discovery and stat). -/
structure SessionDirEntry where
  path : String
  events : Option String
  workspace : Option String
  statMtime : Option Int
deriving DecidableEq

/-- The filesystem snapshot a bulk query runs against: session-state root
accessibility, its session directories in readdir order, and the logs
directory listing for the default-model resolver (none = readdir failure). -/
structure CopilotFS where
  rootExists : Bool
  sessionDirs : List SessionDirEntry
  logs : Option (List LogFileEntry)

/-- The module-level mutable state parseSessionsFromDirs reads and writes:
the three caches, the dirty-tracking watcher state, the force-full flag and
the model cache. -/
structure ParserState where
  sessionCache : SessionCacheState
  sessionMetadataIndex : List (String × SessionMeta)
  sessionAggregateCache : List (String × AggEntry)
  watcher : SessionWatcherState
  forceFullReconciliation : Bool
  modelCache : ModelCacheState
deriving DecidableEq

/-- JS truthiness of an optional string option (an empty string is falsy,
exactly like an absent option). -/
def optTruthy (o : Option String) : Bool :=
  match o with
  | some s => s ≠ ""
  | none => false

/-- The since filter: the code tests !since || mtimeMs >= since, so an
absent or zero since admits every session. -/
def sinceOk (since : Option Int) (mtimeMs : Int) : Bool :=
  match since with
  | none => true
  | some s => if s = 0 then true else s ≤ mtimeMs

/-- parser.ts ParsedSessionDir. -/
structure ParsedSessionDir where
  sessionId : String
  dirPath : String
  mtimeMs : Int
deriving DecidableEq

/-- paths.ts getSessionDirs: the session directories whose events.jsonl is
accessible, in readdir order; empty when the root is unreadable (the
rootExists = false case is handled by the caller before discovery runs). -/
def getSessionDirs (fs : CopilotFS) : List SessionDirEntry :=
  fs.sessionDirs.filter (fun e => e.events.isSome)

/-- Accumulator of the per-directory discovery sweep of
parseSessionsFromDirs: watcher registrations, the metadata index being
updated, the seen events.jsonl paths and the selected session list. -/
structure SweepAcc where
  watcher : SessionWatcherState
  metaIndex : List (String × SessionMeta)
  seen : List String
  sessionDirs : List ParsedSessionDir
deriving DecidableEq

/-- parser.ts parseSessionsFromDirs, one iteration of the discovery loop:
register the watch, record the path as seen, then either trust the metadata
index (not dirty, no full sweep forced, entry present), or stat the file —
dropping the index entry if the stat fails, trusting an mtime-equal index
entry, or refreshing the index from the stat and the directory basename.
Selected sessions must pass the sessionId filter and the since filter. -/
def sweepStep (opts : SessionParseOptions) (dirtySnapshot : List String) (needsFullStat : Bool)
    (acc : SweepAcc) (e : SessionDirEntry) : SweepAcc :=
  let w := watchSessionDir acc.watcher e.path
  let eventsPath := pathJoin e.path "events.jsonl"
  let seen := acc.seen ++ [eventsPath]
  let isDirty := dirtySnapshot.contains eventsPath
  let metadata := mapGet acc.metaIndex eventsPath
  let acc := { acc with watcher := w, seen := seen }
  if optTruthy opts.sessionId &&
     (match metadata with
      | some m => m.sessionId ≠ opts.sessionId.getD ""
      | none => false) then acc
  else if !isDirty && !needsFullStat && metadata.isSome then
    match metadata with
    | some m =>
      if sinceOk opts.since m.mtimeMs then
        { acc with sessionDirs := acc.sessionDirs ++ [⟨m.sessionId, e.path, m.mtimeMs⟩] }
      else acc
    | none => acc
  else
    match e.statMtime with
    | none => { acc with metaIndex := mapDelete acc.metaIndex eventsPath }
    | some mtimeMs =>
      match metadata with
      | some m =>
        if m.mtimeMs = mtimeMs then
          if optTruthy opts.sessionId && m.sessionId ≠ opts.sessionId.getD "" then acc
          else if sinceOk opts.since m.mtimeMs then
            { acc with sessionDirs := acc.sessionDirs ++ [⟨m.sessionId, e.path, m.mtimeMs⟩] }
          else acc
        else
          let sessionId := basename e.path
          let acc := { acc with metaIndex := mapSet acc.metaIndex eventsPath ⟨mtimeMs, sessionId⟩ }
          if optTruthy opts.sessionId && sessionId ≠ opts.sessionId.getD "" then acc
          else if sinceOk opts.since mtimeMs then
            { acc with sessionDirs := acc.sessionDirs ++ [⟨sessionId, e.path, mtimeMs⟩] }
          else acc
      | none =>
        let sessionId := basename e.path
        let acc := { acc with metaIndex := mapSet acc.metaIndex eventsPath ⟨mtimeMs, sessionId⟩ }
        if optTruthy opts.sessionId && sessionId ≠ opts.sessionId.getD "" then acc
        else if sinceOk opts.since mtimeMs then
          { acc with sessionDirs := acc.sessionDirs ++ [⟨sessionId, e.path, mtimeMs⟩] }
        else acc

/-- The file contents backing a selected session directory, looked up from
the snapshot when parseSessionDirRows re-reads the directory. -/
def sessionDirContents (fs : CopilotFS) (dirPath : String) : SessionDirFS :=
  match fs.sessionDirs.find? (fun e => e.path = dirPath) with
  | some e => ⟨e.path, e.events, e.workspace⟩
  | none => ⟨dirPath, none, none⟩

/-- parser.ts parseSessionsFromDirs, one iteration of the aggregate-cache
loop: a cached entry whose updatedAt equals the session's current mtime is
used (its rows appended, lastAccessed bumped to now); otherwise the session
is re-parsed and a fresh entry stored under the session id. -/
def processSessionDir (env : JsEnv) (fs : CopilotFS) (defaultModel : String) (now : Int)
    (acc : List UsageRow × List (String × AggEntry)) (dir : ParsedSessionDir) :
    List UsageRow × List (String × AggEntry) :=
  match mapGet acc.2 dir.sessionId with
  | some cached =>
    if cached.updatedAt = dir.mtimeMs then
      (acc.1 ++ cached.usageRows,
       mapSet acc.2 dir.sessionId { cached with lastAccessed := now })
    else
      let usageRows :=
        parseSessionDirRows env (sessionDirContents fs dir.dirPath) dir.mtimeMs defaultModel
      (acc.1 ++ usageRows, mapSet acc.2 dir.sessionId ⟨dir.mtimeMs, usageRows, now⟩)
  | none =>
    let usageRows :=
      parseSessionDirRows env (sessionDirContents fs dir.dirPath) dir.mtimeMs defaultModel
    (acc.1 ++ usageRows, mapSet acc.2 dir.sessionId ⟨dir.mtimeMs, usageRows, now⟩)

/-- Modelled from the spec: evictSessionAggregateCache lives in cache.ts,
which is not among the provided sources. Per spec section 3 and section 4.4
step 9, entries beyond the configured maximum count are evicted,
least-recently-accessed first; survivors keep their map order. The bound is
a parameter because cache.ts (and hence the concrete constant) is missing. -/
def evictSessionAggregateCache (maxEntries : Nat) (agg : List (String × AggEntry)) :
    List (String × AggEntry) :=
  if agg.length ≤ maxEntries then agg
  else
    let keep := (agg.insertionSort (fun a b => b.2.lastAccessed ≤ a.2.lastAccessed)).take maxEntries
    agg.filter (fun p => keep.any (fun q => q.1 = p.1))

/-- parser.ts parseSessionsFromDirs, fast-path condition: no truthy
sessionId filter, the defaulted limit and the since value equal the cached
query key, the cached result is non-empty and younger than the TTL
(CACHE_TTL_MS lives in the missing cache.ts, so the TTL is a parameter). -/
def fastPathHit (opts : SessionParseOptions) (sc : SessionCacheState) (now ttlMs : Int) : Bool :=
  !optTruthy opts.sessionId && (opts.limit.getD 100 = sc.lastLimit) &&
  decide (now - sc.lastCheck < ttlMs) && !sc.lastResult.isEmpty &&
  (sc.lastSince = opts.since)

/-- parser.ts parseSessionsFromDirs, slow path (full incremental
reconciliation): snapshot-and-clear the dirty set, consume the force-full
flag, discover directories, resolve the default model, sweep every
discovered directory against the metadata index, prune the index to the
seen paths, sort the selected sessions by mtime descending (stable), run the
aggregate-cache loop, evict, and store the result cache on unfiltered
queries. Both Date.now() reads of the pass are modelled as the single
instant now. -/
def slowPathParse (env : JsEnv) (fs : CopilotFS) (opts : SessionParseOptions) (st : ParserState)
    (now : Int) (maxAggEntries : Nat) : List UsageRow × ParserState :=
  let limit := opts.limit.getD 100
  let dirtySnapshot := st.watcher.dirtyPaths
  let w0 := { st.watcher with dirtyPaths := [] }
  let needsFullStat := st.forceFullReconciliation
  let discovered := getSessionDirs fs
  let dm := getDefaultModel now st.modelCache fs.logs
  let acc0 : SweepAcc := ⟨w0, st.sessionMetadataIndex, [], []⟩
  let acc := discovered.foldl (sweepStep opts dirtySnapshot needsFullStat) acc0
  let metaIndex := acc.metaIndex.filter (fun p => acc.seen.contains p.1)
  let sortedDirs := acc.sessionDirs.insertionSort (fun a b => b.mtimeMs ≤ a.mtimeMs)
  let parsed := sortedDirs.foldl (processSessionDir env fs dm.1 now) ([], st.sessionAggregateCache)
  let agg := evictSessionAggregateCache maxAggEntries parsed.2
  let sessionCache :=
    if !optTruthy opts.sessionId then
      { lastCheck := now, lastResult := parsed.1, lastLimit := limit, lastSince := opts.since }
    else st.sessionCache
  (parsed.1,
   { sessionCache := sessionCache, sessionMetadataIndex := metaIndex,
     sessionAggregateCache := agg, watcher := acc.watcher,
     forceFullReconciliation := false, modelCache := dm.2 })

/-- parser.ts parseSessionsFromDirs: empty when the session-state root is
inaccessible; otherwise start the session watcher (idempotent), serve the
result cache on a fast-path hit, and run the full incremental reconciliation
otherwise. -/
def parseSessionsFromDirs (env : JsEnv) (fs : CopilotFS) (opts : SessionParseOptions)
    (st : ParserState) (now ttlMs : Int) (maxAggEntries : Nat) : List UsageRow × ParserState :=
  if !fs.rootExists then ([], st)
  else
    let st := { st with
      watcher := startSessionWatcher ((getSessionDirs fs).map (·.path)) st.watcher }
    if fastPathHit opts st.sessionCache now ttlMs then (st.sessionCache.lastResult, st)
    else slowPathParse env fs opts st now maxAggEntries
/-- The value of the last binding of key k in a pair list. -/
def lastAssoc {V : Type} (k : String) (ps : List (String × V)) : Option V :=
  ((ps.filter (fun p => p.1 = k)).getLast?).map (·.2)

/-- Specification-side rendering of the dedup contract: one entry per
distinct key, in order of each key's first occurrence, holding the value of
the key's last occurrence. -/
def lastWinsMap {V : Type} : List (String × V) → List (String × V)
  | [] => []
  | p :: ps => (p.1, (lastAssoc p.1 ps).getD p.2) :: lastWinsMap (ps.filter (fun q => q.1 ≠ p.1))
termination_by l => l.length
decreasing_by simp only [List.length_cons]; exact Nat.lt_succ_of_le (List.length_filter_le _ _)

/-- First-occurrence-order deduplication of a key list. -/
def firstDedup : List String → List String
  | [] => []
  | k :: ks => k :: firstDedup (ks.filter (fun x => x ≠ k))
termination_by l => l.length
decreasing_by simp only [List.length_cons]; exact Nat.lt_succ_of_le (List.length_filter_le _ _)

/-- The vendor branch condition of the token computation: a numeric
prompt_tokens strictly greater than zero. -/
def vendorPromptPos (d : AssistantData) : Bool :=
  match d.usage with
  | some u =>
    match u.prompt_tokens with
    | some p => decide (0 < p)
    | none => false
  | none => false

/-- Fixture data for concrete theorems. -/
def cexData : AssistantData :=
  { messageId := "m", content := "abc", model := none,
    usage := some { prompt_tokens := none, completion_tokens := none,
                    cache_read_input_tokens := some 5,
                    cache_creation_input_tokens := none } }

def cexEvent : AssistantEvent := { data := cexData, timestamp := none }

def noParse : String → Option Int := fun _ => none

def cexSi : SessionInfo := { sessionId := "s", sessionName := none, projectPath := none }

/-- Fixtures for the C5 counterexample. -/
def cexRow : UsageRow :=
  { sessionId := "s", providerId := "github-copilot", modelId := "m",
    tokens := { input := 1, output := 1, cacheRead := none, cacheWrite := none },
    timestamp := 0, sessionUpdatedAt := 0, isEstimated := true,
    sessionName := none, projectPath := none }

def cexEnv : JsEnv := { jsonParse := fun _ => none, dateParse := fun _ => none }

def cexState : ParserState :=
  { sessionCache := { lastCheck := 0, lastResult := [cexRow], lastLimit := 100,
                      lastSince := none },
    sessionMetadataIndex := [], sessionAggregateCache := [],
    watcher := { sessionDirWatchers := [], rootWatcher := false, dirtyPaths := [],
                 reconciliationTimer := false, started := false },
    forceFullReconciliation := false,
    modelCache := { cachedModel := none, modelCacheTime := 0 } }

def cexNoRootFS : CopilotFS := { rootExists := false, sessionDirs := [], logs := none }

def cexOpts : SessionParseOptions := { limit := none, since := none, sessionId := none }

def cexLogEntry : LogFileEntry :=
  { name := "process-a.log", isFile := true, mtimeMs := some 1,
    content := some "Using default model: gpt-5" }


-- ===== C3 machinery =====

theorem getLast?_cons_or {α : Type} (a : α) (l : List α) :
    (a :: l).getLast? = l.getLast?.or (some a) := by
  cases l <;> simp [List.getLast?]

theorem option_map_or {α β : Type} (f : α → β) (a b : Option α) :
    (a.or b).map f = (a.map f).or (b.map f) := by
  cases a <;> rfl

theorem any_congr_mem {α : Type} {p q : α → Bool} (l : List α) (h : ∀ a ∈ l, p a = q a) :
    l.any p = l.any q := by
  induction l with
  | nil => rfl
  | cons a t ih =>
    simp only [List.any_cons, h a (List.mem_cons_self a t)]
    rw [ih (fun b hb => h b (List.mem_cons_of_mem a hb))]

theorem lastAssoc_cons {V : Type} (k : String) (q : String × V) (ps : List (String × V)) :
    lastAssoc k (q :: ps)
      = if q.1 = k then (lastAssoc k ps).or (some q.2) else lastAssoc k ps := by
  unfold lastAssoc
  rw [List.filter_cons]
  by_cases h : q.1 = k
  · rw [if_pos (by simpa using h), getLast?_cons_or, option_map_or, if_pos h]
    rfl
  · rw [if_neg (by simpa using h), if_neg h]

theorem keyMem_map_replace {V : Type} (m : List (String × V)) (k k' : String) (v : V) :
    keyMem (m.map (fun p => if p.1 = k then (k, v) else p)) k' = keyMem m k' := by
  unfold keyMem
  rw [List.any_map]
  apply any_congr_mem
  intro p _
  by_cases hp : p.1 = k <;> simp [Function.comp, hp]

theorem keyMem_append_single {V : Type} (m : List (String × V)) (k k' : String) (v : V) :
    keyMem (m ++ [(k, v)]) k' = (keyMem m k' || decide (k' = k)) := by
  unfold keyMem
  rw [List.any_append]
  simp [eq_comm]

theorem keyMem_mapSet {V : Type} (m : List (String × V)) (k k' : String) (v : V) :
    keyMem (mapSet m k v) k' = (keyMem m k' || decide (k' = k)) := by
  unfold mapSet
  by_cases h : keyMem m k
  · rw [if_pos h, keyMem_map_replace]
    by_cases hk : k' = k
    · subst hk
      simp [h]
    · simp [hk]
  · rw [if_neg h, keyMem_append_single]


theorem filter_congr_mem {α : Type} {p q : α → Bool} (l : List α) (h : ∀ a ∈ l, p a = q a) :
    l.filter p = l.filter q := by
  induction l with
  | nil => rfl
  | cons a t ih =>
    rw [List.filter_cons, List.filter_cons, h a (List.mem_cons_self a t),
        ih (fun b hb => h b (List.mem_cons_of_mem a hb))]

theorem option_getD_or_some {α : Type} (a : Option α) (v w : α) :
    (a.or (some v)).getD w = a.getD v := by
  cases a <;> rfl

theorem keyMem_false_ne {V : Type} {m : List (String × V)} {k : String}
    (h : keyMem m k = false) : ∀ q ∈ m, q.1 ≠ k := by
  intro q hq he
  have : keyMem m k = true := by
    unfold keyMem
    exact List.any_eq_true.mpr ⟨q, hq, by simp [he]⟩
  rw [this] at h
  exact Bool.true_eq_false.mp h

theorem lastAssoc_filter {V : Type} (k : String) (q : (String × V) → Bool)
    (l : List (String × V)) (h : ∀ r ∈ l, r.1 = k → q r = true) :
    lastAssoc k (l.filter q) = lastAssoc k l := by
  unfold lastAssoc
  rw [List.filter_filter]
  have : l.filter (fun a => decide (a.1 = k) && q a) = l.filter (fun a => a.1 = k) := by
    apply filter_congr_mem
    intro r hr
    by_cases hk : r.1 = k
    · simp [hk, h r hr hk]
    · simp [hk]
  rw [this]

theorem foldl_mapSet_eq {V : Type} (ps : List (String × V)) :
    ∀ acc : List (String × V),
      ps.foldl (fun m p => mapSet m p.1 p.2) acc
        = acc.map (fun q => (q.1, (lastAssoc q.1 ps).getD q.2))
          ++ lastWinsMap (ps.filter (fun p => !keyMem acc p.1)) := by
  induction ps with
  | nil =>
    intro acc
    simp [lastWinsMap, lastAssoc]
  | cons p ps ih =>
    intro acc
    rw [List.foldl_cons, ih (mapSet acc p.1 p.2)]
    by_cases h : keyMem acc p.1 = true
    · have hmap : (mapSet acc p.1 p.2).map (fun q => (q.1, (lastAssoc q.1 ps).getD q.2))
          = acc.map (fun q => (q.1, (lastAssoc q.1 (p :: ps)).getD q.2)) := by
        unfold mapSet
        rw [if_pos h, List.map_map]
        apply List.map_congr_left
        intro q hq
        by_cases hqk : q.1 = p.1
        · simp only [Function.comp_apply, if_pos hqk]
          rw [hqk, lastAssoc_cons, if_pos rfl, option_getD_or_some]
        · simp only [Function.comp_apply, if_neg hqk]
          rw [lastAssoc_cons, if_neg (fun he => hqk he.symm)]
      have hfil : ps.filter (fun r => !keyMem (mapSet acc p.1 p.2) r.1)
          = (p :: ps).filter (fun r => !keyMem acc r.1) := by
        rw [List.filter_cons, if_neg (by simp [h])]
        apply filter_congr_mem
        intro r _
        rw [keyMem_mapSet]
        by_cases hrk : r.1 = p.1
        · simp [hrk, h]
        · simp [hrk]
      rw [hmap, hfil]
    · have h' : keyMem acc p.1 = false := by
        cases hb : keyMem acc p.1
        · rfl
        · exact absurd hb h
      have hne := keyMem_false_ne h'
      have hmap : acc.map (fun q => (q.1, (lastAssoc q.1 ps).getD q.2))
          = acc.map (fun q => (q.1, (lastAssoc q.1 (p :: ps)).getD q.2)) := by
        apply List.map_congr_left
        intro q hq
        rw [lastAssoc_cons, if_neg (fun he => hne q hq he.symm)]
      have hsetstep : mapSet acc p.1 p.2 = acc ++ [(p.1, p.2)] := by
        unfold mapSet
        rw [if_neg h]
      have hfilcons : (p :: ps).filter (fun r => !keyMem acc r.1)
          = p :: ps.filter (fun r => !keyMem acc r.1) := by
        rw [List.filter_cons, if_pos (by simp [h'])]
      have hhead : lastAssoc p.1 (ps.filter (fun r => !keyMem acc r.1)) = lastAssoc p.1 ps := by
        apply lastAssoc_filter
        intro r _ hrk
        simp [hrk, h']
      have htail : (ps.filter (fun r => !keyMem acc r.1)).filter (fun q => q.1 ≠ p.1)
          = ps.filter (fun r => !keyMem (acc ++ [(p.1, p.2)]) r.1) := by
        rw [List.filter_filter]
        apply filter_congr_mem
        intro r _
        rw [keyMem_append_single]
        by_cases hrk : r.1 = p.1
        · simp [hrk]
        · simp [hrk]
      rw [hsetstep, List.map_append, hfilcons]
      show acc.map _ ++ [(p.1, (lastAssoc p.1 ps).getD p.2)]
            ++ lastWinsMap (ps.filter (fun r => !keyMem (acc ++ [(p.1, p.2)]) r.1))
          = acc.map _ ++ lastWinsMap (p :: ps.filter (fun r => !keyMem acc r.1))
      rw [lastWinsMap, hhead, htail, ← hmap, List.append_assoc]
      rfl

theorem or_some_eq_getD {α : Type} (a : Option α) (v : α) :
    a.or (some v) = some (a.getD v) := by
  cases a <;> rfl

theorem map_fst_filter_ne {V : Type} (k : String) (ps : List (String × V)) :
    (ps.filter (fun q => q.1 ≠ k)).map (·.1) = (ps.map (·.1)).filter (fun x => x ≠ k) := by
  induction ps with
  | nil => rfl
  | cons p t ih =>
    rw [List.filter_cons, List.map_cons, List.filter_cons]
    by_cases hp : p.1 = k
    · rw [if_neg (by simp [hp]), if_neg (by simp [hp]), ih]
    · rw [if_pos (by simp [hp]), if_pos (by simp [hp]), List.map_cons, ih]

theorem lastWinsMap_keys {V : Type} (ps : List (String × V)) :
    (lastWinsMap ps).map (·.1) = firstDedup (ps.map (·.1)) := by
  induction ps using lastWinsMap.induct with
  | case1 => simp [lastWinsMap, firstDedup]
  | case2 p t ih =>
    rw [lastWinsMap, firstDedup.eq_def]
    simp only [List.map_cons]
    rw [ih, map_fst_filter_ne]

theorem lastAssoc_filter_self_ne {V : Type} (k : String) (ps : List (String × V)) :
    lastAssoc k (ps.filter (fun q => q.1 ≠ k)) = none := by
  unfold lastAssoc
  rw [List.filter_filter]
  have : ps.filter (fun a => decide (a.1 = k) && decide (a.1 ≠ k)) = [] := by
    have : ∀ a ∈ ps, (decide (a.1 = k) && decide (a.1 ≠ k)) = false := by
      intro a _
      by_cases ha : a.1 = k <;> simp [ha]
    calc ps.filter (fun a => decide (a.1 = k) && decide (a.1 ≠ k))
        = ps.filter (fun _ => false) := filter_congr_mem ps this
      _ = [] := List.filter_false ps
  rw [this]
  rfl

theorem lastAssoc_lastWinsMap {V : Type} (ps : List (String × V)) (k : String) :
    lastAssoc k (lastWinsMap ps) = lastAssoc k ps := by
  induction ps using lastWinsMap.induct with
  | case1 => simp [lastWinsMap]
  | case2 p t ih =>
    rw [lastWinsMap, lastAssoc_cons, lastAssoc_cons]
    by_cases hk : p.1 = k
    · rw [if_pos hk, if_pos hk, ih, hk, lastAssoc_filter_self_ne, Option.none_or,
          ← hk, or_some_eq_getD]
    · rw [if_neg hk, if_neg hk, ih]
      apply lastAssoc_filter
      intro r _ hrk
      simp only [hrk, decide_eq_true_eq]
      exact fun he => hk he.symm

-- ===== C1 machinery =====

theorem positiveCache_eq_some (v : Option Int) (c : Int) :
    positiveCache v = some c ↔ (v = some c ∧ 0 < c) := by
  cases v with
  | none => simp [positiveCache]
  | some x =>
    by_cases hx : 0 < x
    · simp only [positiveCache, Option.some_bind, if_pos hx, Option.some.injEq]
      constructor
      · intro h
        exact ⟨by rw [h], by rw [← h]; exact hx⟩
      · intro h
        exact h.1.symm ▸ rfl
    · simp only [positiveCache, Option.some_bind, if_neg hx]
      constructor
      · intro h
        exact absurd h (by simp)
      · intro h
        rcases h with ⟨h1, h2⟩
        cases h1
        exact absurd h2 hx

theorem estimateTokens_eq (text : String) : estimateTokens text = (text.length + 3) / 4 := by
  unfold estimateTokens
  by_cases h : text = ""
  · subst h
    rfl
  · rw [if_neg h]

theorem buildUsageRow_est (dp : String → Option Int) (si : SessionInfo) (dm : String)
    (mt : Int) (tl : List ModelChangeEntry) (e : AssistantEvent)
    (hv : vendorPromptPos e.data = false) :
    (buildUsageRow dp si dm mt tl e).tokens
      = { input := (((estimateTokens e.data.content + 1) / 2 : Nat) : Int),
          output := ((estimateTokens e.data.content : Nat) : Int),
          cacheRead := none, cacheWrite := none }
    ∧ (buildUsageRow dp si dm mt tl e).isEstimated = true := by
  rcases e with ⟨⟨mid, content, model, usage⟩, ets⟩
  cases usage with
  | none => exact ⟨rfl, rfl⟩
  | some u =>
    rcases u with ⟨pt, ct, cr, cw⟩
    cases pt with
    | none => exact ⟨rfl, rfl⟩
    | some p =>
      have hnp : ¬(0 < p) := of_decide_eq_false hv
      constructor <;> simp [buildUsageRow, estimatedInputOutput, hnp]

theorem deltaTokens_est (d : AssistantData) (hv : vendorPromptPos d = false) :
    (deltaTokens d).input = (((estimateTokens d.content + 1) / 2 : Nat) : Int)
    ∧ (deltaTokens d).output = ((estimateTokens d.content : Nat) : Int) := by
  rcases d with ⟨mid, content, model, usage⟩
  cases usage with
  | none => exact ⟨rfl, rfl⟩
  | some u =>
    rcases u with ⟨pt, ct, cr, cw⟩
    cases pt with
    | none => exact ⟨rfl, rfl⟩
    | some p =>
      have hnp : ¬(0 < p) := of_decide_eq_false hv
      constructor <;> simp [deltaTokens, estimatedInputOutput, hnp]


-- ===== C2 machinery =====

theorem find?_reverse_eq_getLast?_filter {α : Type} (p : α → Bool) (l : List α) :
    l.reverse.find? p = (l.filter p).getLast? := by
  induction l with
  | nil => rfl
  | cons a t ih =>
    rw [List.reverse_cons, List.find?_append, ih, List.filter_cons]
    by_cases h : p a
    · rw [if_pos h, getLast?_cons_or]
      cases (t.filter p).getLast? <;> simp [List.find?, h]
    · rw [if_neg h]
      cases (t.filter p).getLast? <;> simp [List.find?, h]

theorem resolveModelAtTime_eq_getLast (t : Int) (dm : String) (tl : List ModelChangeEntry) :
    resolveModelAtTime t dm tl
      = ((((tl.filter (fun c => c.timestamp ≤ t)).getLast?).map (·.model)).getD dm) := by
  unfold resolveModelAtTime
  by_cases he : tl.isEmpty
  · have h0 : tl = [] := by
      cases tl
      · rfl
      · exact absurd he (by simp)
    subst h0
    simp
  · rw [if_neg he, find?_reverse_eq_getLast?_filter]
    cases (tl.filter (fun c => c.timestamp ≤ t)).getLast? <;> rfl

/-- C2, confirmed. The emitted row's modelId is the explicit per-message
model field when present; otherwise it is the model of the last (latest)
entry of the timeline whose timestamp is at or before the message's tolerant
timestamp, or the supplied default model when no entry qualifies or the
timeline is empty; and the timeline parseSessionDirRows feeds in
(sessionTimeline) is sorted ascending by timestamp. -/
theorem modelid_resolution_latest_change_wins :
    (∀ (dp : String → Option Int) (si : SessionInfo) (dm : String) (mt : Int)
       (tl : List ModelChangeEntry) (e : AssistantEvent),
       (buildUsageRow dp si dm mt tl e).modelId
         = (match e.data.model with
            | some m => m
            | none =>
              match (tl.filter
                  (fun c => c.timestamp ≤ toTimestamp dp e.timestamp mt)).getLast? with
              | some c => c.model
              | none => dm))
    ∧ (∀ (dp : String → Option Int) (events : List JVal),
        List.Sorted (fun a b : ModelChangeEntry => a.timestamp ≤ b.timestamp)
          (sessionTimeline dp events)) := by
  constructor
  · intro dp si dm mt tl e
    show e.data.model.getD
        (resolveModelAtTime (toTimestamp dp e.timestamp mt) dm tl) = _
    cases e.data.model with
    | some m => rfl
    | none =>
      show resolveModelAtTime (toTimestamp dp e.timestamp mt) dm tl = _
      rw [resolveModelAtTime_eq_getLast]
      cases (tl.filter (fun c => c.timestamp ≤ toTimestamp dp e.timestamp mt)).getLast? <;> rfl
  · intro dp events
    haveI h1 : IsTotal ModelChangeEntry (fun a b => a.timestamp ≤ b.timestamp) :=
      ⟨fun a b => le_total a.timestamp b.timestamp⟩
    haveI h2 : IsTrans ModelChangeEntry (fun a b => a.timestamp ≤ b.timestamp) :=
      ⟨fun _ _ _ hab hbc => le_trans hab hbc⟩
    exact List.sorted_insertionSort _ _


/-- C1, corrected. For every assistant message row built by parseSessionDirRows
via buildUsageRow: when the usage block carries a positive numeric
prompt_tokens the row takes input = prompt_tokens, output = completion_tokens
or 0, isEstimated = false, and attaches cacheRead / cacheWrite exactly when
the vendor value is present and strictly positive; otherwise
output = ceil(length(content) / 4), input = ceil(output * 0.5),
isEstimated = true and the row attaches no cache fields. The tailing
watcher's deltaTokens computes identical input/output figures, but — against
the original claim — attaches cacheRead / cacheWrite whenever they are
present and positive, in the estimation branch too. -/
theorem token_computation_vendor_precedence :
    ∀ (dp : String → Option Int) (si : SessionInfo) (dm : String) (mt : Int)
      (tl : List ModelChangeEntry) (e : AssistantEvent),
      (∀ u p, e.data.usage = some u → u.prompt_tokens = some p → 0 < p →
          (buildUsageRow dp si dm mt tl e).tokens.input = p
          ∧ (buildUsageRow dp si dm mt tl e).tokens.output = u.completion_tokens.getD 0
          ∧ (buildUsageRow dp si dm mt tl e).isEstimated = false
          ∧ (∀ c, (buildUsageRow dp si dm mt tl e).tokens.cacheRead = some c ↔
               (u.cache_read_input_tokens = some c ∧ 0 < c))
          ∧ (∀ c, (buildUsageRow dp si dm mt tl e).tokens.cacheWrite = some c ↔
               (u.cache_creation_input_tokens = some c ∧ 0 < c))
          ∧ deltaTokens e.data = (buildUsageRow dp si dm mt tl e).tokens)
      ∧ (vendorPromptPos e.data = false →
          (buildUsageRow dp si dm mt tl e).tokens.output
              = (((e.data.content.length + 3) / 4 : Nat) : Int)
          ∧ (buildUsageRow dp si dm mt tl e).tokens.input
              = ((((e.data.content.length + 3) / 4 + 1) / 2 : Nat) : Int)
          ∧ (buildUsageRow dp si dm mt tl e).isEstimated = true
          ∧ (buildUsageRow dp si dm mt tl e).tokens.cacheRead = none
          ∧ (buildUsageRow dp si dm mt tl e).tokens.cacheWrite = none
          ∧ (deltaTokens e.data).input = (buildUsageRow dp si dm mt tl e).tokens.input
          ∧ (deltaTokens e.data).output = (buildUsageRow dp si dm mt tl e).tokens.output
          ∧ (∀ c, (deltaTokens e.data).cacheRead = some c ↔
               (∃ u, e.data.usage = some u ∧ u.cache_read_input_tokens = some c ∧ 0 < c))
          ∧ (∀ c, (deltaTokens e.data).cacheWrite = some c ↔
               (∃ u, e.data.usage = some u ∧ u.cache_creation_input_tokens = some c ∧ 0 < c))) := by
  intro dp si dm mt tl e
  rcases e with ⟨⟨mid, content, model, usage⟩, ets⟩
  constructor
  · intro u p hu hp hpos
    dsimp only at hu
    subst hu
    rcases u with ⟨pt, ct, cr, cw⟩
    dsimp only at hp
    subst hp
    refine ⟨?_, ?_, ?_, ?_, ?_, ?_⟩ <;>
      simp [buildUsageRow, deltaTokens, hpos, positiveCache_eq_some]
  · intro hv
    obtain ⟨ht, he⟩ := buildUsageRow_est dp si dm mt tl ⟨⟨mid, content, model, usage⟩, ets⟩ hv
    obtain ⟨hdi, hdo⟩ := deltaTokens_est ⟨mid, content, model, usage⟩ hv
    rw [estimateTokens_eq] at ht hdi hdo
    refine ⟨by rw [ht], by rw [ht], he, by rw [ht], by rw [ht],
            by rw [hdi, ht], by rw [hdo, ht], ?_, ?_⟩
    · intro c
      show positiveCache (Option.bind usage _) = some c ↔ _
      rw [positiveCache_eq_some]
      constructor
      · rintro ⟨hb, hc⟩
        rcases Option.bind_eq_some.mp hb with ⟨u, hub, hcr⟩
        exact ⟨u, hub, hcr, hc⟩
      · rintro ⟨u, hub, hcr, hc⟩
        exact ⟨Option.bind_eq_some.mpr ⟨u, hub, hcr⟩, hc⟩
    · intro c
      show positiveCache (Option.bind usage _) = some c ↔ _
      rw [positiveCache_eq_some]
      constructor
      · rintro ⟨hb, hc⟩
        rcases Option.bind_eq_some.mp hb with ⟨u, hub, hcr⟩
        exact ⟨u, hub, hcr, hc⟩
      · rintro ⟨u, hub, hcr, hc⟩
        exact ⟨Option.bind_eq_some.mpr ⟨u, hub, hcr⟩, hc⟩

/-- C1 counterexample: an assistant message without prompt_tokens but with
cache_read_input_tokens = 5 yields a parser row with no cacheRead, while the
tailing watcher's delta carries cacheRead = some 5, so the watcher does not
compute the token record identically to the parser. -/
theorem watcher_cache_fields_estimate_branch_cex :
    (deltaTokens cexData).cacheRead = some 5
    ∧ (buildUsageRow noParse cexSi "dm" 0 [] cexEvent).tokens.cacheRead = none
    ∧ (buildUsageRow noParse cexSi "dm" 0 [] cexEvent).isEstimated = true
    ∧ deltaTokens cexData ≠ (buildUsageRow noParse cexSi "dm" 0 [] cexEvent).tokens := by
  refine ⟨rfl, rfl, rfl, ?_⟩
  decide

/-- C3, confirmed. parseSessionDirRows equals rowsFromEvents over the parsed
event list, and rowsFromEvents emits exactly the values of lastWinsMap over
the (messageId, row) pairs of the assistant messages: one row per distinct
messageId, in order of each id's first occurrence, holding the row built
from that id's last occurrence in file order; the final two conjuncts state
those key and value facts of lastWinsMap. -/
theorem rows_one_per_messageId_last_wins :
    (∀ (env : JsEnv) (dir : SessionDirFS) (mtimeMs : Int) (dm : String),
       parseSessionDirRows env dir mtimeMs dm
         = rowsFromEvents env.dateParse
             (sessionInfoOf (readWorkspaceYaml dir.workspace) (basename dir.path)) dm mtimeMs
             (readJsonlFile env.jsonParse dir.events))
    ∧ (∀ (dp : String → Option Int) (si : SessionInfo) (dm : String) (mt : Int)
         (events : List JVal),
        rowsFromEvents dp si dm mt events
          = (lastWinsMap ((events.filterMap asAssistantEvent).map
              (fun e => (e.data.messageId,
                 buildUsageRow dp si dm mt (sessionTimeline dp events) e)))).map (·.2))
    ∧ (∀ (V : Type) (ps : List (String × V)),
        (lastWinsMap ps).map (·.1) = firstDedup (ps.map (·.1)))
    ∧ (∀ (V : Type) (ps : List (String × V)) (k : String),
        lastAssoc k (lastWinsMap ps) = lastAssoc k ps) := by
  refine ⟨?_, ?_, fun V ps => lastWinsMap_keys ps, fun V ps k => lastAssoc_lastWinsMap ps k⟩
  · intro env dir mtimeMs dm
    by_cases hev : (readJsonlFile env.jsonParse dir.events).isEmpty
    · have h0 : readJsonlFile env.jsonParse dir.events = [] := by
        cases hl : readJsonlFile env.jsonParse dir.events
        · rfl
        · rw [hl] at hev
          exact absurd hev (by simp)
      simp [parseSessionDirRows, h0, rowsFromEvents, sessionTimeline]
    · simp [parseSessionDirRows, hev]
  · intro dp si dm mt events
    simp only [rowsFromEvents]
    rw [foldl_mapSet_eq, List.map_nil, List.nil_append]
    have hfil : ((events.filterMap asAssistantEvent).map
        (fun e => (e.data.messageId,
           buildUsageRow dp si dm mt (sessionTimeline dp events) e))).filter
          (fun p => !keyMem ([] : List (String × UsageRow)) p.1)
        = (events.filterMap asAssistantEvent).map
            (fun e => (e.data.messageId,
               buildUsageRow dp si dm mt (sessionTimeline dp events) e)) := by
      calc _ = ((events.filterMap asAssistantEvent).map
          (fun e => (e.data.messageId,
             buildUsageRow dp si dm mt (sessionTimeline dp events) e))).filter
            (fun _ => true) := filter_congr_mem _ (fun a _ => rfl)
        _ = _ := List.filter_true _
    rw [hfil]


/-- C4, confirmed. One step of the reconciliation pass's aggregate-cache
loop: a cached entry whose updatedAt equals the session's current mtime is
used — its stored rows are appended and its lastAccessed bumped to now — and
on an mtime mismatch or a missing entry the session directory is re-parsed
and a fresh entry with updatedAt = mtime and lastAccessed = now replaces
it. -/
theorem aggregate_cache_hit_iff_mtime_equal :
    ∀ (env : JsEnv) (fs : CopilotFS) (dm : String) (now : Int)
      (sessions : List UsageRow) (agg : List (String × AggEntry)) (dir : ParsedSessionDir),
      (∀ c, mapGet agg dir.sessionId = some c → c.updatedAt = dir.mtimeMs →
         processSessionDir env fs dm now (sessions, agg) dir
           = (sessions ++ c.usageRows,
              mapSet agg dir.sessionId { c with lastAccessed := now }))
      ∧ (∀ c, mapGet agg dir.sessionId = some c → c.updatedAt ≠ dir.mtimeMs →
         processSessionDir env fs dm now (sessions, agg) dir
           = (sessions ++ parseSessionDirRows env (sessionDirContents fs dir.dirPath)
                 dir.mtimeMs dm,
              mapSet agg dir.sessionId
                ⟨dir.mtimeMs,
                 parseSessionDirRows env (sessionDirContents fs dir.dirPath) dir.mtimeMs dm,
                 now⟩))
      ∧ (mapGet agg dir.sessionId = none →
         processSessionDir env fs dm now (sessions, agg) dir
           = (sessions ++ parseSessionDirRows env (sessionDirContents fs dir.dirPath)
                 dir.mtimeMs dm,
              mapSet agg dir.sessionId
                ⟨dir.mtimeMs,
                 parseSessionDirRows env (sessionDirContents fs dir.dirPath) dir.mtimeMs dm,
                 now⟩)) := by
  intro env fs dm now sessions agg dir
  refine ⟨?_, ?_, ?_⟩
  · intro c hc heq
    simp [processSessionDir, hc, heq]
  · intro c hc hne
    simp [processSessionDir, hc, hne]
  · intro hc
    simp [processSessionDir, hc]

/-- C5, corrected. fastPathHit holds exactly when: no truthy sessionId is
requested, the defaulted limit and the since value equal the result cache's
stored query key, and the cached result is non-empty with age under the TTL.
parseSessionsFromDirs returns empty without reconciliation when the
session-state root is inaccessible — a case the original claim omits; with
the root accessible it returns the cached lastResult exactly on a
fastPathHit (a value independent of the rest of the filesystem snapshot) and
otherwise runs the full incremental reconciliation slowPathParse. -/
theorem fast_path_exact_query_key_and_ttl :
    (∀ (opts : SessionParseOptions) (sc : SessionCacheState) (now ttlMs : Int),
       fastPathHit opts sc now ttlMs = true ↔
         (optTruthy opts.sessionId = false ∧ opts.limit.getD 100 = sc.lastLimit
          ∧ now - sc.lastCheck < ttlMs ∧ sc.lastResult ≠ [] ∧ sc.lastSince = opts.since))
    ∧ (∀ env fs opts (st : ParserState) now ttlMs maxN, fs.rootExists = false →
        parseSessionsFromDirs env fs opts st now ttlMs maxN = ([], st))
    ∧ (∀ env fs opts (st : ParserState) now ttlMs maxN, fs.rootExists = true →
        fastPathHit opts st.sessionCache now ttlMs = true →
        parseSessionsFromDirs env fs opts st now ttlMs maxN
          = (st.sessionCache.lastResult,
             { st with watcher :=
                 startSessionWatcher ((getSessionDirs fs).map (·.path)) st.watcher }))
    ∧ (∀ env fs opts (st : ParserState) now ttlMs maxN, fs.rootExists = true →
        fastPathHit opts st.sessionCache now ttlMs = false →
        parseSessionsFromDirs env fs opts st now ttlMs maxN
          = slowPathParse env fs opts
              { st with watcher :=
                  startSessionWatcher ((getSessionDirs fs).map (·.path)) st.watcher }
              now maxN) := by
  refine ⟨?_, ?_, ?_, ?_⟩
  · intro opts sc now ttlMs
    simp [fastPathHit, Bool.and_eq_true, List.isEmpty_iff, and_assoc]
  · intro env fs opts st now ttlMs maxN h
    simp [parseSessionsFromDirs, h]
  · intro env fs opts st now ttlMs maxN h hf
    simp [parseSessionsFromDirs, h, hf]
  · intro env fs opts st now ttlMs maxN h hf
    simp [parseSessionsFromDirs, h, hf]

/-- C5 counterexample: with every condition of the claim satisfied — no
sessionId, matching limit and since, non-empty cached result within TTL —
but the session-state root inaccessible, parseSessionsFromDirs returns the
empty list, not the cached rows. -/
theorem fast_path_missing_root_cex :
    cexOpts.sessionId = none
    ∧ cexOpts.limit.getD 100 = cexState.sessionCache.lastLimit
    ∧ cexState.sessionCache.lastSince = cexOpts.since
    ∧ cexState.sessionCache.lastResult ≠ []
    ∧ (1 : Int) - cexState.sessionCache.lastCheck < 30000
    ∧ (parseSessionsFromDirs cexEnv cexNoRootFS cexOpts cexState 1 30000 50).1 = []
    ∧ (parseSessionsFromDirs cexEnv cexNoRootFS cexOpts cexState 1 30000 50).1
        ≠ cexState.sessionCache.lastResult := by
  refine ⟨rfl, rfl, rfl, by decide, by decide, rfl, by decide⟩


/-- C6, confirmed. parseSessionDirRows is a total function (never raises)
that returns the empty list when the event log is missing and when every
line is blank or unparseable; dropping a blank or unparseable line from the
line stream leaves readJsonlLines unchanged, so a failing line is skipped
silently while the remaining lines still parse; and readJsonlFile of present
content is exactly the tolerant per-line fold. -/
theorem parser_never_raises_skips_bad_lines :
    (∀ (env : JsEnv) (dir : SessionDirFS) (mtimeMs : Int) (dm : String),
       dir.events = none → parseSessionDirRows env dir mtimeMs dm = [])
    ∧ (∀ (env : JsEnv) (dir : SessionDirFS) (mtimeMs : Int) (dm : String) (c : String),
        dir.events = some c →
        (∀ l ∈ jsLines c, jsTrim l = "" ∨ env.jsonParse (jsTrim l) = none) →
        parseSessionDirRows env dir mtimeMs dm = [])
    ∧ (∀ (jp : String → Option JVal) (ls1 ls2 : List String) (line : String),
        (jsTrim line = "" ∨ jp (jsTrim line) = none) →
        readJsonlLines jp (ls1 ++ line :: ls2) = readJsonlLines jp (ls1 ++ ls2))
    ∧ (∀ (jp : String → Option JVal) (content : String),
        readJsonlFile jp (some content) = readJsonlLines jp (jsLines content)) := by
  refine ⟨?_, ?_, ?_, fun jp content => rfl⟩
  · intro env dir mtimeMs dm h
    simp [parseSessionDirRows, readJsonlFile, h]
  · intro env dir mtimeMs dm c hc hall
    have h0 : readJsonlFile env.jsonParse dir.events = [] := by
      rw [hc]
      show readJsonlLines env.jsonParse (jsLines c) = []
      unfold readJsonlLines
      rw [List.filterMap_eq_nil_iff]
      intro l hl
      rcases hall l hl with h | h
      · simp [h]
      · simp [h]
    simp [parseSessionDirRows, h0]
  · intro jp ls1 ls2 line h
    unfold readJsonlLines
    rw [List.filterMap_append, List.filterMap_append, List.filterMap_cons]
    have h0 : (if jsTrim line = "" then none else jp (jsTrim line)) = none := by
      rcases h with h | h
      · simp [h]
      · simp [h]
    rw [h0]

-- ===== C7 machinery =====

theorem find?_map_replace {V : Type} (m : List (String × V)) (k : String) (v : V)
    (h : keyMem m k = true) :
    (m.map (fun p => if p.1 = k then (k, v) else p)).find? (fun p => p.1 = k) = some (k, v) := by
  induction m with
  | nil => exact absurd h (by simp [keyMem])
  | cons a t ih =>
    by_cases ha : a.1 = k
    · simp [ha]
    · have h' : keyMem t k = true := by
        unfold keyMem at h ⊢
        simpa [List.any_cons, ha] using h
      simp only [List.map_cons, if_neg ha]
      rw [List.find?_cons_of_neg _ (by simpa using ha), ih h']

theorem mapGet_mapSet_self {V : Type} (m : List (String × V)) (k : String) (v : V) :
    mapGet (mapSet m k v) k = some v := by
  unfold mapGet mapSet
  by_cases h : keyMem m k
  · rw [if_pos h, find?_map_replace m k v h]
    rfl
  · rw [if_neg h, List.find?_append]
    have h0 : m.find? (fun p => p.1 = k) = none := by
      rw [List.find?_eq_none]
      intro x hx
      have := keyMem_false_ne (by simpa using h) x hx
      simpa using this
    rw [h0]
    simp

theorem processEventsDelta_read (env : JsEnv) (nowMs : Int) (ws : Option String)
    (offsets : List (String × Nat)) (filePath dirPath : String) (content : List Char)
    (hne : content.length ≠ (if content.length < (mapGet offsets filePath).getD 0 then 0
        else (mapGet offsets filePath).getD 0)) :
    (processEventsDelta env nowMs true (some content) ws offsets filePath dirPath).chunk
      = some (content.drop (if content.length < (mapGet offsets filePath).getD 0 then 0
          else (mapGet offsets filePath).getD 0))
    ∧ (processEventsDelta env nowMs true (some content) ws offsets filePath dirPath).fileOffsets
      = mapSet offsets filePath content.length := by
  simp only [processEventsDelta]
  rw [if_neg (by simp)]
  rw [if_neg hne]
  exact ⟨rfl, rfl⟩

theorem processEventsDelta_empty (env : JsEnv) (nowMs : Int) (ws : Option String)
    (offsets : List (String × Nat)) (filePath dirPath : String) (content : List Char)
    (heq : content.length = (if content.length < (mapGet offsets filePath).getD 0 then 0
        else (mapGet offsets filePath).getD 0)) :
    processEventsDelta env nowMs true (some content) ws offsets filePath dirPath
      = ⟨none, [], offsets⟩ := by
  simp only [processEventsDelta]
  rw [if_neg (by simp)]
  rw [if_pos heq]

/-- C7, corrected. With a callback registered and the file readable, a
delta-processing invocation whose byte range is non-empty reads exactly the
bytes from the start offset (0 when the file shrank below the recorded
offset) up to the current size and advances the recorded offset to the
current size; an invocation with an empty range returns with no read, no
updates and the offsets untouched — which, when the file shrank to empty,
leaves the recorded offset above the file size instead of advancing it to 0
as the original claim states. Two sequential non-empty appends B1 then B2
with serialized notifications are delivered as exactly the chunks B1 then
B2, never overlapping and never skipped. -/
theorem tail_delta_exact_coverage :
    (∀ (env : JsEnv) (nowMs : Int) (ws : Option String) (offsets : List (String × Nat))
       (filePath dirPath : String) (content : List Char),
       ((content.length ≠ (if content.length < (mapGet offsets filePath).getD 0 then 0
            else (mapGet offsets filePath).getD 0) →
          (processEventsDelta env nowMs true (some content) ws offsets filePath dirPath).chunk
            = some (content.drop (if content.length < (mapGet offsets filePath).getD 0 then 0
                else (mapGet offsets filePath).getD 0))
          ∧ (processEventsDelta env nowMs true (some content) ws offsets
                filePath dirPath).fileOffsets
            = mapSet offsets filePath content.length)
        ∧ (content.length = (if content.length < (mapGet offsets filePath).getD 0 then 0
            else (mapGet offsets filePath).getD 0) →
          processEventsDelta env nowMs true (some content) ws offsets filePath dirPath
            = ⟨none, [], offsets⟩)))
    ∧ (∀ (env : JsEnv) (nowMs : Int) (ws : Option String) (offsets : List (String × Nat))
         (filePath dirPath : String) (F B1 B2 : List Char),
        B1 ≠ [] → B2 ≠ [] → mapGet offsets filePath = some F.length →
        (processEventsDelta env nowMs true (some (F ++ B1)) ws offsets
            filePath dirPath).chunk = some B1
        ∧ (processEventsDelta env nowMs true (some (F ++ B1 ++ B2)) ws
            (processEventsDelta env nowMs true (some (F ++ B1)) ws offsets
               filePath dirPath).fileOffsets filePath dirPath).chunk = some B2
        ∧ mapGet (processEventsDelta env nowMs true (some (F ++ B1 ++ B2)) ws
            (processEventsDelta env nowMs true (some (F ++ B1)) ws offsets
               filePath dirPath).fileOffsets filePath dirPath).fileOffsets filePath
          = some (F ++ B1 ++ B2).length) := by
  constructor
  · intro env nowMs ws offsets filePath dirPath content
    exact ⟨processEventsDelta_read env nowMs ws offsets filePath dirPath content,
           processEventsDelta_empty env nowMs ws offsets filePath dirPath content⟩
  · intro env nowMs ws offsets filePath dirPath F B1 B2 hB1 hB2 hoff
    have hpos1 : 0 < B1.length := List.length_pos.mpr hB1
    have hpos2 : 0 < B2.length := List.length_pos.mpr hB2
    have hstart1 : (if (F ++ B1).length < (mapGet offsets filePath).getD 0 then 0
        else (mapGet offsets filePath).getD 0) = F.length := by
      rw [hoff, Option.getD_some, List.length_append, if_neg (by omega)]
    have hne1 : (F ++ B1).length ≠ (if (F ++ B1).length < (mapGet offsets filePath).getD 0
        then 0 else (mapGet offsets filePath).getD 0) := by
      rw [hstart1, List.length_append]
      omega
    obtain ⟨r1chunk, r1off⟩ :=
      processEventsDelta_read env nowMs ws offsets filePath dirPath (F ++ B1) hne1
    rw [hstart1, List.drop_left] at r1chunk
    have hoff2 : mapGet (processEventsDelta env nowMs true (some (F ++ B1)) ws offsets
        filePath dirPath).fileOffsets filePath = some (F ++ B1).length := by
      rw [r1off]
      exact mapGet_mapSet_self offsets filePath (F ++ B1).length
    have hstart2 : (if (F ++ B1 ++ B2).length
          < (mapGet (processEventsDelta env nowMs true (some (F ++ B1)) ws offsets
              filePath dirPath).fileOffsets filePath).getD 0 then 0
        else (mapGet (processEventsDelta env nowMs true (some (F ++ B1)) ws offsets
              filePath dirPath).fileOffsets filePath).getD 0) = (F ++ B1).length := by
      rw [hoff2, Option.getD_some, List.length_append (F ++ B1) B2, if_neg (by omega)]
    have hne2 : (F ++ B1 ++ B2).length
        ≠ (if (F ++ B1 ++ B2).length
            < (mapGet (processEventsDelta env nowMs true (some (F ++ B1)) ws offsets
                filePath dirPath).fileOffsets filePath).getD 0 then 0
          else (mapGet (processEventsDelta env nowMs true (some (F ++ B1)) ws offsets
                filePath dirPath).fileOffsets filePath).getD 0) := by
      rw [hstart2, List.length_append (F ++ B1) B2]
      omega
    obtain ⟨r2chunk, r2off⟩ :=
      processEventsDelta_read env nowMs ws _ filePath dirPath (F ++ B1 ++ B2) hne2
    rw [hstart2, List.drop_left] at r2chunk
    refine ⟨r1chunk, r2chunk, ?_⟩
    rw [r2off]
    exact mapGet_mapSet_self _ filePath (F ++ B1 ++ B2).length

/-- C7 counterexample: a file shrunk to size 0 while the recorded offset is
10: the invocation reads nothing and the recorded offset stays 10 — it is
not advanced to the current size as the claim states for every
invocation. -/
theorem tail_shrink_to_empty_offset_kept_cex :
    ([] : List Char).length < 10
    ∧ (processEventsDelta cexEnv 0 true (some []) none [("p", 10)] "p" "d").fileOffsets
        = [("p", 10)]
    ∧ (processEventsDelta cexEnv 0 true (some []) none [("p", 10)] "p" "d").chunk = none
    ∧ mapGet (processEventsDelta cexEnv 0 true (some []) none [("p", 10)] "p" "d").fileOffsets "p"
        ≠ some ([] : List Char).length := by
  refine ⟨by decide, rfl, rfl, by decide⟩


/-- C9, confirmed. The slow path returns the same rows for any two limit
values with all other options and state equal, and an absent limit behaves
exactly like limit = 100; the limit option therefore never truncates the
returned row list and enters only through the result-cache query key. -/
theorem limit_never_truncates_rows :
    (∀ (env : JsEnv) (fs : CopilotFS) (opts : SessionParseOptions) (st : ParserState)
       (now : Int) (maxN : Nat) (l1 l2 : Option Int),
       (slowPathParse env fs { opts with limit := l1 } st now maxN).1
         = (slowPathParse env fs { opts with limit := l2 } st now maxN).1)
    ∧ (∀ (env : JsEnv) (fs : CopilotFS) (opts : SessionParseOptions) (st : ParserState)
         (now ttlMs : Int) (maxN : Nat),
        parseSessionsFromDirs env fs { opts with limit := none } st now ttlMs maxN
          = parseSessionsFromDirs env fs { opts with limit := some 100 } st now ttlMs maxN) := by
  exact ⟨fun env fs opts st now maxN l1 l2 => rfl,
         fun env fs opts st now ttlMs maxN => rfl⟩

/-- C10, confirmed. stopActivityWatch does not only clear the live-activity
watcher (watches, offsets, callback, started flag): its second component is
exactly stopSessionWatcher of the dirty-tracking watcher state — watches
closed and cleared, root watch closed, dirty-path set emptied,
reconciliation timer cancelled, started reset — so stopping live tracking
also erases the pending dirty state the next bulk reconciliation would have
consumed. -/
theorem stop_activity_watch_also_stops_session_watcher :
    ∀ (a : ActivityWatcherState) (s : SessionWatcherState),
      (stopActivityWatch a s).2 = stopSessionWatcher s
      ∧ (stopActivityWatch a s).2.dirtyPaths = []
      ∧ (stopActivityWatch a s).2.reconciliationTimer = false
      ∧ (stopActivityWatch a s).2.started = false
      ∧ (stopActivityWatch a s).2.sessionDirWatchers = []
      ∧ (stopActivityWatch a s).2.rootWatcher = false
      ∧ (stopActivityWatch a s).1.fileOffsets = []
      ∧ (stopActivityWatch a s).1.callbackSet = false
      ∧ (stopActivityWatch a s).1.sessionDirWatchers = []
      ∧ (stopActivityWatch a s).1.rootWatcher = false
      ∧ (stopActivityWatch a s).1.started = false := by
  intro a s
  exact ⟨rfl, rfl, rfl, rfl, rfl, rfl, rfl, rfl, rfl, rfl, rfl⟩

-- ===== C8 machinery =====

theorem getLast?_mem {α : Type} {l : List α} {a : α} (h : l.getLast? = some a) : a ∈ l := by
  induction l with
  | nil => exact absurd h (by simp)
  | cons x t ih =>
    rw [getLast?_cons_or] at h
    cases ht : t.getLast? with
    | some b =>
      rw [ht] at h
      injection h with h
      exact List.mem_cons_of_mem x (ih (by rw [ht, h]))
    | none =>
      rw [ht] at h
      injection h with h
      rw [← h]
      exact List.mem_cons_self x t

theorem lineModelCandidate_ne_empty (line : List Char) (m : String)
    (h : lineModelCandidate line = some m) : m ≠ "" := by
  simp only [lineModelCandidate] at h
  split at h
  · exact absurd h (by simp)
  · split at h
    · exact absurd h (by simp)
    · split at h
      · exact absurd h (by simp)
      · rename_i hm
        injection h with h
        rw [← h]
        exact hm

theorem foldl_lineCandidate_getLast (l : List (List Char)) (init : Option String) :
    l.foldl (fun lastModel line =>
        match lineModelCandidate line with
        | some m => some m
        | none => lastModel) init
      = ((l.filterMap lineModelCandidate).getLast?).or init := by
  induction l generalizing init with
  | nil => simp
  | cons a t ih =>
    rw [List.foldl_cons, ih, List.filterMap_cons]
    cases hf : lineModelCandidate a with
    | none => rfl
    | some m =>
      rw [getLast?_cons_or]
      cases (t.filterMap lineModelCandidate).getLast? <;> rfl

theorem extractModel_lastCandidate (content : String) :
    extractModelFromProcessLog (some content)
      = ((splitOnPred (fun ch => ch = '\n' || ch = '\r') content.data).filterMap
          lineModelCandidate).getLast? := by
  show (splitOnPred (fun ch => ch = '\n' || ch = '\r') content.data).foldl _ none = _
  rw [foldl_lineCandidate_getLast, Option.or_none]

theorem latestProcessLog_is_max (entries : List LogFileEntry) (e : LogFileEntry) (mt : Int)
    (h : latestProcessLog entries = some (e, mt)) :
    (e, mt) ∈ qualifyingLogs entries
    ∧ ∀ v : LogFileEntry × Int, v ∈ qualifyingLogs entries → v.2 ≤ mt := by
  haveI h1 : IsTotal (LogFileEntry × Int) (fun a b => b.2 ≤ a.2) :=
    ⟨fun a b => le_total b.2 a.2⟩
  haveI h2 : IsTrans (LogFileEntry × Int) (fun a b => b.2 ≤ a.2) :=
    ⟨fun _ _ _ hab hbc => le_trans hbc hab⟩
  have hsorted := List.sorted_insertionSort
    (fun a b : LogFileEntry × Int => b.2 ≤ a.2) (qualifyingLogs entries)
  have hperm := List.perm_insertionSort
    (fun a b : LogFileEntry × Int => b.2 ≤ a.2) (qualifyingLogs entries)
  unfold latestProcessLog at h
  cases hl : (qualifyingLogs entries).insertionSort
      (fun a b : LogFileEntry × Int => b.2 ≤ a.2) with
  | nil =>
    rw [hl] at h
    exact absurd h (by simp)
  | cons x rest =>
    rw [hl] at h
    have hx : x = (e, mt) := by
      rw [List.head?_cons] at h
      injection h with h
    rw [hl] at hsorted hperm
    rw [List.sorted_cons] at hsorted
    constructor
    · have hm : x ∈ qualifyingLogs entries := hperm.mem_iff.mp (List.mem_cons_self x rest)
      rw [← hx]
      exact hm
    · intro v hv
      have hv2 : v ∈ x :: rest := hperm.mem_iff.mpr hv
      rcases List.mem_cons.mp hv2 with hvx | hvr
      · rw [hvx, hx]
      · have := hsorted.1 v hvr
        rw [hx] at this
        exact this

/-- C8, corrected. The process-log scan keeps the last line segment whose
text after the first occurrence of the marker literal — the full
string with the log-level tag, longer than the marker the original claim
states — trims to a non-empty model name; an extracted model is never empty;
latestProcessLog selects a qualifying process-*.log entry of maximal mtime;
a truthy cached model younger than 60 seconds is returned without touching
the filesystem; the scan falls back to the previously cached value or the
sentinel unknown on a readdir failure, when no log qualifies and when the
latest log holds no match; and a successful scan caches the model at the
current instant, so any call within the next 60 seconds returns it. -/
theorem default_model_marker_scan_cache :
    (∀ content : String,
       extractModelFromProcessLog (some content)
         = ((splitOnPred (fun ch => ch = '\n' || ch = '\r') content.data).filterMap
             lineModelCandidate).getLast?)
    ∧ (∀ (content : Option String) (m : String),
        extractModelFromProcessLog content = some m → m ≠ "")
    ∧ (∀ (entries : List LogFileEntry) (e : LogFileEntry) (mt : Int),
        latestProcessLog entries = some (e, mt) →
        (e, mt) ∈ qualifyingLogs entries
        ∧ ∀ v : LogFileEntry × Int, v ∈ qualifyingLogs entries → v.2 ≤ mt)
    ∧ (∀ (now : Int) (st : ModelCacheState) (logs : Option (List LogFileEntry)) (m : String),
        st.cachedModel = some m → m ≠ "" → now - st.modelCacheTime < MODEL_CACHE_TTL_MS →
        getDefaultModel now st logs = (m, st))
    ∧ (∀ (now : Int) (st : ModelCacheState),
        getDefaultModelScan now st none = (st.cachedModel.getD "unknown", st))
    ∧ (∀ (now : Int) (st : ModelCacheState) (entries : List LogFileEntry),
        latestProcessLog entries = none →
        getDefaultModelScan now st (some entries) = (st.cachedModel.getD "unknown", st))
    ∧ (∀ (now : Int) (st : ModelCacheState) (entries : List LogFileEntry)
         (e : LogFileEntry × Int),
        latestProcessLog entries = some e →
        (∀ m, extractModelFromProcessLog e.1.content = some m →
          getDefaultModelScan now st (some entries)
            = (m, { cachedModel := some m, modelCacheTime := now }))
        ∧ (extractModelFromProcessLog e.1.content = none →
          getDefaultModelScan now st (some entries) = (st.cachedModel.getD "unknown", st)))
    ∧ (∀ (now : Int) (st : ModelCacheState) (logs : Option (List LogFileEntry)),
        st.cachedModel = none → getDefaultModel now st logs = getDefaultModelScan now st logs)
    ∧ (∀ (now : Int) (st : ModelCacheState) (logs : Option (List LogFileEntry)) (m : String),
        st.cachedModel = some m →
        ¬(m ≠ "" ∧ now - st.modelCacheTime < MODEL_CACHE_TTL_MS) →
        getDefaultModel now st logs = getDefaultModelScan now st logs)
    ∧ (∀ (now nowLater : Int) (logsLater : Option (List LogFileEntry)) (m : String),
        m ≠ "" → nowLater - now < MODEL_CACHE_TTL_MS →
        getDefaultModel nowLater { cachedModel := some m, modelCacheTime := now } logsLater
          = (m, { cachedModel := some m, modelCacheTime := now })) := by
  refine ⟨extractModel_lastCandidate, ?_, latestProcessLog_is_max,
          ?_, fun now st => rfl, ?_, ?_, ?_, ?_, ?_⟩
  · intro content m h
    cases content with
    | none => exact absurd h (by simp [extractModelFromProcessLog])
    | some c =>
      rw [extractModel_lastCandidate] at h
      rcases List.mem_filterMap.mp (getLast?_mem h) with ⟨line, _, hline⟩
      exact lineModelCandidate_ne_empty line m hline
  · intro now st logs m h1 h2 h3
    simp [getDefaultModel, h1, h2, h3]
  · intro now st entries h
    simp [getDefaultModelScan, h]
  · intro now st entries e h
    constructor
    · intro m hm
      simp [getDefaultModelScan, h, hm]
    · intro hm
      simp [getDefaultModelScan, h, hm]
  · intro now st logs h
    simp [getDefaultModel, h]
  · intro now st logs m h1 h2
    rw [not_and_or] at h2
    rcases h2 with h2 | h2
    · simp only [not_not] at h2
      simp [getDefaultModel, h1, h2]
    · simp [getDefaultModel, h1, h2]
  · intro now nowLater logsLater m h1 h2
    simp [getDefaultModel, h1, h2]

/-- C8 counterexample: a log whose only line reads the marker the claim
states, without the log-level tag, yields no match — the resolver returns
the sentinel unknown instead of the model on that line — while the same line
with the tag matches. -/
theorem default_model_marker_needs_info_tag_cex :
    extractModelFromProcessLog (some "Using default model: gpt-5") = none
    ∧ getDefaultModel 0 { cachedModel := none, modelCacheTime := 0 } (some [cexLogEntry])
        = ("unknown", { cachedModel := none, modelCacheTime := 0 })
    ∧ ("unknown" : String) ≠ "gpt-5"
    ∧ extractModelFromProcessLog (some "[INFO] Using default model: gpt-5") = some "gpt-5" := by
  refine ⟨by decide, by decide, by decide, by decide⟩

